import Mathlib

/-!
# vtworker job slot and binlog player positions

A shallow embedding of

* `go/cmd/vtworker/vtworker.go`: the mutex-protected globals `currentWorker`,
  `currentMemoryLogger`, `currentContext`, `currentCancelFunc`, `lastRunError`,
  the function `setAndStartWorker` with the goroutine it spawns, and
  `installSignalHandlers` with the goroutine it spawns;
* `go/vt/binlog/proto/binlog_player.go`: `BlpPositionList.FindBlpPositionById`.

Heap objects (memory loggers, contexts, channels) are cells of allocation-ordered
lists, so that a pointer is an index and `make`/`New...` appends a cell.  Each
critical section (the code between `Lock` and `Unlock`) is one atomic step.
-/

namespace Vitess

/-- A Go `error` value, represented by the text its `Error()` method returns;
`none : Option GoError` is the nil error. -/
abbrev GoError := String

/-! ## binlog_player.go -/

/-- BlpPosition describes a binlog player position to start from.  `Uid` is a
`uint32` (only compared, never computed with); `P` stands for
`myproto.ReplicationPosition`. -/
structure BlpPosition (P : Type) where
  Uid : Nat
  Position : P
  deriving DecidableEq, Repr

/-- BlpPositionList is a list of BlpPosition, not sorted. -/
structure BlpPositionList (P : Type) where
  Entries : List (BlpPosition P)
  deriving DecidableEq, Repr

/-- The text of `fmt.Errorf("BlpPosition for id %v not found", id)`. -/
def blpNotFound (id : Nat) : GoError :=
  "BlpPosition for id " ++ toString id ++ " not found"

/-- The `for _, pos := range bpl.Entries` loop of `FindBlpPositionById`, with the
`return nil, fmt.Errorf(...)` that follows it.  The result pair is
`(*BlpPosition, error)`; the returned pointer is to a copy of the entry. -/
def findBlpLoop {P : Type} (id : Nat) :
    List (BlpPosition P) → Option (BlpPosition P) × Option GoError
  | [] => (none, some (blpNotFound id))
  | pos :: rest => if pos.Uid = id then (some pos, none) else findBlpLoop id rest

/-- FindBlpPositionById returns the BlpPosition with the given id, or error. -/
def BlpPositionList.FindBlpPositionById {P : Type} (bpl : BlpPositionList P) (id : Nat) :
    Option (BlpPosition P) × Option GoError :=
  findBlpLoop id bpl.Entries

/-! ## vtworker.go: data -/

/-- The five globals that `currentWorkerMutex` protects.  `W` stands for
`worker.Worker` (a non-nil interface value); pointers and the cancel function
are indices into the heaps of `World`. -/
structure Slot (W : Type) where
  currentWorker : Option W
  currentMemoryLogger : Option Nat
  currentContext : Option Nat
  currentCancelFunc : Option Nat
  lastRunError : Option GoError
  deriving DecidableEq, Repr

/-- A `logutil.Logger` value as built in this file. -/
inductive Logger
  | console
  | memory (id : Nat)
  | tee (a b : Logger)
  deriving DecidableEq, Repr

/-- Program counter of the goroutine spawned by `setAndStartWorker`. -/
inductive DriverPc
  | start
  | inRun (ctx : Option Nat)
  | returned (err : Option GoError)
  | saved (err : Option GoError)
  | finished (err : Option GoError)
  deriving DecidableEq, Repr

/-- The goroutine spawned by `setAndStartWorker`: the captured `wrk` and `done`,
and where it stands. -/
structure Driver (W : Type) where
  wrk : W
  done : Nat
  pc : DriverPc
  deriving DecidableEq, Repr

/-- The goroutine spawned by `installSignalHandlers` with its `sigChan`
(capacity 1): the number of buffered signals and whether the goroutine has
already got past `<-sigChan`. -/
structure SigHandler where
  sigChan : Nat
  received : Bool
  deriving DecidableEq, Repr

/-- The whole program state seen by this file.

* `loggers`: contents of each allocated memory logger;
* `ctxs`: for each allocated cancellable context, how many times its cancel
  function has been invoked (the context is cancelled when this is positive);
* `chans`: for each allocated `done` channel, how many times it was closed;
* `wrLogger`: the logger of the global wrangler `wr`;
* `sigChecks`: how many times a signal goroutine ran its critical section. -/
structure World (W : Type) where
  slot : Slot W
  wrLogger : Logger
  loggers : List (List String)
  ctxs : List Nat
  chans : List Nat
  drivers : List (Driver W)
  handlers : List SigHandler
  sigChecks : Nat
  deriving DecidableEq, Repr

/-- The slot before any job ran: every global is nil. -/
def Slot.empty {W : Type} : Slot W :=
  { currentWorker := none, currentMemoryLogger := none, currentContext := none,
    currentCancelFunc := none, lastRunError := none }

/-- Program start, after `main` created `wr` with a console logger. -/
def World.init {W : Type} : World W :=
  { slot := Slot.empty, wrLogger := Logger.console, loggers := [], ctxs := [], chans := [],
    drivers := [], handlers := [], sigChecks := 0 }

/-- First documented state: no job ever ran. -/
def Slot.isIdle {W : Type} (sl : Slot W) : Bool :=
  sl.currentWorker.isNone && sl.currentContext.isNone && sl.currentCancelFunc.isNone
    && sl.lastRunError.isNone

/-- Second documented state: one worker running. -/
def Slot.isRunning {W : Type} (sl : Slot W) : Bool :=
  sl.currentWorker.isSome && sl.currentContext.isSome && sl.currentCancelFunc.isSome
    && sl.lastRunError.isNone

/-- Third documented state: a worker already ran, none is running. -/
def Slot.isCompleted {W : Type} (sl : Slot W) : Bool :=
  sl.currentWorker.isSome && sl.currentContext.isNone && sl.currentCancelFunc.isNone

/-! ## vtworker.go: operations -/

/-- The text of `fmt.Errorf("A worker is already in progress: %v", currentWorker)`;
`fmtV` is the `%v` rendering of a worker. -/
def alreadyInProgress {W : Type} (fmtV : W → String) (cur : W) : GoError :=
  "A worker is already in progress: " ++ fmtV cur

/-- The function `setAndStartWorker`, whose whole body runs under the mutex.  The result is
the new state with the returned `(chan struct{}, error)`. -/
def setAndStartWorker {W : Type} (fmtV : W → String) (wrk : W) (s : World W) :
    World W × Option Nat × Option GoError :=
  match s.slot.currentWorker with
  | some cur => (s, none, some (alreadyInProgress fmtV cur))
  | none =>
    let logger := s.loggers.length
    let ctx := s.ctxs.length
    let done := s.chans.length
    ({ s with
        slot := { currentWorker := some wrk
                  currentMemoryLogger := some logger
                  currentContext := some ctx
                  currentCancelFunc := some ctx
                  lastRunError := none }
        loggers := s.loggers ++ [[]]
        ctxs := s.ctxs ++ [0]
        chans := s.chans ++ [0]
        wrLogger := Logger.tee (Logger.memory logger) Logger.console
        drivers := s.drivers ++ [{ wrk := wrk, done := done, pc := DriverPc.start }] },
      some done, none)

/-- The critical section of the spawned goroutine (between `Lock` and `Unlock`):
clear the context and the cancel function, store the error `Run` returned. -/
def markDone {W : Type} (err : Option GoError) (sl : Slot W) : Slot W :=
  { sl with currentContext := none, currentCancelFunc := none, lastRunError := err }

/-- The critical section of the signal goroutine:
`if currentCancelFunc != nil { currentCancelFunc() }`. -/
def cancelStep {W : Type} (s : World W) : World W :=
  match s.slot.currentCancelFunc with
  | some c => { s with ctxs := s.ctxs.modify (· + 1) c }
  | none => s

/-- The function `installSignalHandlers`: a new `sigChan` of capacity 1, registered for
SIGTERM and SIGINT, and a goroutine blocked on it. -/
def installSignalHandlers {W : Type} (s : World W) : World W :=
  { s with handlers := s.handlers ++ [{ sigChan := 0, received := false }] }

/-- Delivery of one SIGTERM or SIGINT: package `signal` sends on every registered
channel without blocking, so a signal is dropped when the buffer is full. -/
def SigHandler.deliver (h : SigHandler) : SigHandler :=
  if h.sigChan < 1 then { h with sigChan := h.sigChan + 1 } else h

/-- What can happen next: a call of `setAndStartWorker`, a step of the goroutine
number `i` it spawned, a call of `installSignalHandlers`, a signal, or the step
of signal goroutine number `j`. -/
inductive Action (W : Type)
  | submit (wrk : W)
  | callRun (i : Nat)
  | runReturns (i : Nat) (err : Option GoError)
  | saveState (i : Nat)
  | closeDone (i : Nat)
  | install
  | signal
  | handle (j : Nat)
  deriving DecidableEq, Repr

/-- Replace the program counter of goroutine `i`. -/
def setPc {W : Type} (ds : List (Driver W)) (i : Nat) (pc : DriverPc) : List (Driver W) :=
  ds.modify (fun d => { d with pc := pc }) i

/-- One step of the program.  An action that is not enabled leaves the state as
it is. -/
def step {W : Type} (fmtV : W → String) (s : World W) : Action W → World W
  | Action.submit wrk => (setAndStartWorker fmtV wrk s).1
  | Action.callRun i =>
    match s.drivers[i]? with
    | some d =>
      match d.pc with
      | DriverPc.start =>
        { s with drivers := setPc s.drivers i (DriverPc.inRun s.slot.currentContext) }
      | _ => s
    | none => s
  | Action.runReturns i err =>
    match s.drivers[i]? with
    | some d =>
      match d.pc with
      | DriverPc.inRun _ => { s with drivers := setPc s.drivers i (DriverPc.returned err) }
      | _ => s
    | none => s
  | Action.saveState i =>
    match s.drivers[i]? with
    | some d =>
      match d.pc with
      | DriverPc.returned err =>
        { s with slot := markDone err s.slot, drivers := setPc s.drivers i (DriverPc.saved err) }
      | _ => s
    | none => s
  | Action.closeDone i =>
    match s.drivers[i]? with
    | some d =>
      match d.pc with
      | DriverPc.saved err =>
        { s with chans := s.chans.modify (· + 1) d.done
                 drivers := setPc s.drivers i (DriverPc.finished err) }
      | _ => s
    | none => s
  | Action.install => installSignalHandlers s
  | Action.signal => { s with handlers := s.handlers.map SigHandler.deliver }
  | Action.handle j =>
    match s.handlers[j]? with
    | some h =>
      if h.received = false ∧ 0 < h.sigChan then
        let s1 := cancelStep s
        { s1 with handlers := s1.handlers.modify
                    (fun _ => { sigChan := h.sigChan - 1, received := true }) j
                  sigChecks := s1.sigChecks + 1 }
      else s
    | none => s

/-- Run a schedule, first action first. -/
def run {W : Type} (fmtV : W → String) (s : World W) (acts : List (Action W)) : World W :=
  acts.foldl (step fmtV) s

/-- States the program can be in: those some schedule reaches from program start. -/
def Reachable {W : Type} (fmtV : W → String) (s : World W) : Prop :=
  ∃ acts : List (Action W), run fmtV World.init acts = s

/-- A batch of calls of `setAndStartWorker`, one after the other, with what each
call returned. -/
def attempts {W : Type} (fmtV : W → String) :
    World W → List W → World W × List (Option Nat × Option GoError)
  | s, [] => (s, [])
  | s, w :: ws =>
    let r := setAndStartWorker fmtV w s
    let rest := attempts fmtV r.1 ws
    (rest.1, r.2 :: rest.2)

/-! ## Job status and the invariant of the slot -/

/-- The error recorded by a goroutine of `setAndStartWorker`, once its critical
section has run. -/
def DriverPc.recorded : DriverPc → Option (Option GoError)
  | DriverPc.saved err => some err
  | DriverPc.finished err => some err
  | _ => none

/-- A worker was admitted and its completion has not yet been recorded. -/
def jobRunning {W : Type} (s : World W) : Bool :=
  s.drivers.any (fun d => d.pc.recorded.isNone)

/-- A worker was admitted and its completion has been recorded. -/
def jobCompleted {W : Type} (s : World W) : Bool :=
  s.drivers.any (fun d => d.pc.recorded.isSome)

/-- What holds of every state the program reaches: there is at most one goroutine
of `setAndStartWorker`, and the slot, the contexts and the channels are as that
goroutine's program counter says. -/
def Inv {W : Type} (s : World W) : Prop :=
  match s.drivers with
  | [] =>
    s.slot.currentWorker = none ∧ s.slot.currentContext = none ∧
      s.slot.currentCancelFunc = none ∧ s.slot.lastRunError = none ∧
      s.chans = [] ∧ s.ctxs = []
  | [d] =>
    s.slot.currentWorker = some d.wrk ∧ d.done = 0 ∧ s.ctxs.length = 1 ∧
      match d.pc with
      | DriverPc.saved err =>
        s.slot.currentContext = none ∧ s.slot.currentCancelFunc = none ∧
          s.slot.lastRunError = err ∧ s.chans = [0]
      | DriverPc.finished err =>
        s.slot.currentContext = none ∧ s.slot.currentCancelFunc = none ∧
          s.slot.lastRunError = err ∧ s.chans = [1]
      | _ =>
        s.slot.currentContext = some 0 ∧ s.slot.currentCancelFunc = some 0 ∧
          s.slot.lastRunError = none ∧ s.chans = [0]
  | _ :: _ :: _ => False

/-- Actions of the threads other than the goroutines of `setAndStartWorker`:
callers of `setAndStartWorker`, `installSignalHandlers`, signals and the signal
goroutines. -/
def Action.isEnv {W : Type} : Action W → Bool
  | Action.submit _ => true
  | Action.install => true
  | Action.signal => true
  | Action.handle _ => true
  | _ => false

/-- Whether an action is a call of `installSignalHandlers`. -/
def Action.isInstall {W : Type} : Action W → Bool
  | Action.install => true
  | _ => false

/-- Number of signals delivered in a schedule. -/
def numSignals {W : Type} : List (Action W) → Nat
  | [] => 0
  | Action.signal :: acts => numSignals acts + 1
  | _ :: acts => numSignals acts

/-- What holds of the signal goroutine when `installSignalHandlers` was called
once and `n` signals were delivered: the critical section ran once if the
goroutine got past `<-sigChan` and not at all otherwise, which takes a signal;
and a delivered signal is either consumed or still in the buffer. -/
def SigInv {W : Type} (n : Nat) (s : World W) : Prop :=
  ∃ h, s.handlers = [h] ∧ h.sigChan ≤ 1 ∧
    s.sigChecks = (if h.received then 1 else 0) ∧
    (h.received = true → 1 ≤ n) ∧
    (0 < h.sigChan → 1 ≤ n) ∧
    (1 ≤ n → h.received = true ∨ h.sigChan = 1) ∧
    s.ctxs.sum ≤ s.sigChecks

/-! ## Reset -/

/-- Modelled from the spec: the error of a `Reset` that is refused; the
operation is not in the sources at hand. -/
inductive ResetError
  | JobInProgressError
  deriving DecidableEq, Repr

/-- Modelled from the spec: `Reset`, which the state comment of
`currentWorkerMutex` mentions ("or reset was run") and the sources at hand do not
contain.  It is only permitted when no job is running, fails with
`JobInProgressError` otherwise, and clears all fields back to the idle
baseline. -/
def Reset {W : Type} (s : World W) : World W × Option ResetError :=
  if s.slot.isRunning then (s, some ResetError.JobInProgressError)
  else ({ s with slot := Slot.empty }, none)

/-- Modelled from the spec: the log snapshot of a status query, the content of
the memory logger of the slot, empty when there is none. -/
def logSnapshot {W : Type} (s : World W) : List String :=
  match s.slot.currentMemoryLogger with
  | some id => (s.loggers[id]?).getD []
  | none => []

/-- The steps of goroutine `i` of `setAndStartWorker` for worker `wrk`, from the
admitting call to the end of its critical section, `Run` returning `err`, with the
actions `e1`, `e2`, `e3`, `e4` of other threads in between. -/
def jobSchedule {W : Type} (i : Nat) (wrk : W) (err : Option GoError)
    (e1 e2 e3 e4 : List (Action W)) : List (Action W) :=
  Action.submit wrk :: e1 ++ Action.callRun i :: e2 ++ Action.runReturns i err :: e3 ++
    Action.saveState i :: e4

/-! ## Example states -/

/-- The state in which worker "A" was admitted and its goroutine has not yet
returned from `Run`. -/
def exampleRunning : World String :=
  run id World.init [Action.submit "A", Action.callRun 0]

/-- The state in which worker "A" ran to completion with a nil error. -/
def exampleCompleted : World String :=
  run id World.init [Action.submit "A", Action.callRun 0, Action.runReturns 0 none,
    Action.saveState 0, Action.closeDone 0]

/-- A slot with nil `currentWorker` and a left-over `lastRunError`. -/
def exampleStale : World String :=
  { (World.init : World String) with
    slot := { (Slot.empty : Slot String) with lastRunError := some "old" } }

/-- The state in which the `Run` of worker "A" has returned the error "boom" and
the goroutine has not yet taken the mutex. -/
def exampleReturned : World String :=
  run id World.init [Action.submit "A", Action.callRun 0, Action.runReturns 0 (some "boom")]

/-- A running job, an installed signal goroutine, and two signals, the goroutine
being scheduled after each. -/
def exampleTwoSignals : List (Action String) :=
  [Action.submit "A", Action.callRun 0, Action.signal, Action.handle 0, Action.signal,
    Action.handle 0]

/-! ## FindBlpPositionById -/

section Binlog

variable {P : Type}

theorem findBlpLoop_first (id : Nat) (e : BlpPosition P) (post : List (BlpPosition P)) :
    ∀ pre : List (BlpPosition P), e.Uid = id → (∀ x ∈ pre, x.Uid ≠ id) →
      findBlpLoop id (pre ++ e :: post) = (some e, none)
  | [], he, _ => by simp [findBlpLoop, he]
  | p :: pre, he, hpre => by
    have hp : p.Uid ≠ id := hpre p (List.mem_cons_self _ _)
    have ih := findBlpLoop_first id e post pre he
      (fun x hx => hpre x (List.mem_cons_of_mem _ hx))
    simpa [findBlpLoop, hp] using ih

theorem findBlpLoop_absent (id : Nat) :
    ∀ l : List (BlpPosition P), (∀ x ∈ l, x.Uid ≠ id) →
      findBlpLoop id l = (none, some (blpNotFound id))
  | [], _ => rfl
  | p :: l, h => by
    have hp : p.Uid ≠ id := h p (List.mem_cons_self _ _)
    have ih := findBlpLoop_absent id l (fun x hx => h x (List.mem_cons_of_mem _ hx))
    simpa [findBlpLoop, hp] using ih

theorem exists_first_with_uid (id : Nat) :
    ∀ l : List (BlpPosition P), (∃ x ∈ l, x.Uid = id) →
      ∃ pre e post, l = pre ++ e :: post ∧ e.Uid = id ∧ ∀ x ∈ pre, x.Uid ≠ id
  | [], h => by
    obtain ⟨x, hx, _⟩ := h
    cases hx
  | p :: l, h => by
    by_cases hp : p.Uid = id
    · exact ⟨[], p, l, rfl, hp, by simp⟩
    · have h2 : ∃ x ∈ l, x.Uid = id := by
        obtain ⟨x, hx, hxid⟩ := h
        rcases List.mem_cons.mp hx with rfl | hx
        · exact absurd hxid hp
        · exact ⟨x, hx, hxid⟩
      obtain ⟨pre, e, post, hl, he, hpre⟩ := exists_first_with_uid id l h2
      refine ⟨p :: pre, e, post, by simp [hl], he, ?_⟩
      intro x hx
      rcases List.mem_cons.mp hx with rfl | hx
      · exact hp
      · exact hpre x hx

theorem findBlpLoop_cases (id : Nat) (l : List (BlpPosition P)) :
    (∃ pre e post, l = pre ++ e :: post ∧ e.Uid = id ∧ (∀ x ∈ pre, x.Uid ≠ id) ∧
        findBlpLoop id l = (some e, none)) ∨
    ((∀ x ∈ l, x.Uid ≠ id) ∧ findBlpLoop id l = (none, some (blpNotFound id))) := by
  by_cases h : ∃ x ∈ l, x.Uid = id
  · obtain ⟨pre, e, post, hl, he, hpre⟩ := exists_first_with_uid id l h
    exact Or.inl ⟨pre, e, post, hl, he, hpre, hl ▸ findBlpLoop_first id e post pre he hpre⟩
  · have h2 : ∀ x ∈ l, x.Uid ≠ id := fun x hx hxid => h ⟨x, hx, hxid⟩
    exact Or.inr ⟨h2, findBlpLoop_absent id l h2⟩

/-- C7: `FindBlpPositionById` returns, with a nil error, the first entry of
`Entries` (in list order) whose `Uid` is `id` when there is one; it returns a nil
position with the error "BlpPosition for id <id> not found" exactly when no entry
has that `Uid`; the empty list always gives the error, and a returned position
always has `Uid = id`. -/
theorem FindBlpPositionById_spec (bpl : BlpPositionList P) (id : Nat) :
    ((∃ x ∈ bpl.Entries, x.Uid = id) →
      ∃ pre e post, bpl.Entries = pre ++ e :: post ∧ e.Uid = id ∧ (∀ x ∈ pre, x.Uid ≠ id) ∧
        bpl.FindBlpPositionById id = (some e, none)) ∧
    ((∀ x ∈ bpl.Entries, x.Uid ≠ id) ↔
      bpl.FindBlpPositionById id =
        (none, some ("BlpPosition for id " ++ toString id ++ " not found"))) ∧
    ((bpl.FindBlpPositionById id).2 ≠ none ↔ ∀ x ∈ bpl.Entries, x.Uid ≠ id) ∧
    ((bpl.FindBlpPositionById id).1 = none ↔ ∀ x ∈ bpl.Entries, x.Uid ≠ id) ∧
    (BlpPositionList.mk ([] : List (BlpPosition P))).FindBlpPositionById id =
      (none, some ("BlpPosition for id " ++ toString id ++ " not found")) ∧
    (∀ e, (bpl.FindBlpPositionById id).1 = some e → e.Uid = id) := by
  unfold BlpPositionList.FindBlpPositionById
  have hmem : ∀ (pre post : List (BlpPosition P)) (e : BlpPosition P),
      bpl.Entries = pre ++ e :: post → e ∈ bpl.Entries := by
    intro pre post e hl
    rw [hl]
    simp
  rcases findBlpLoop_cases id bpl.Entries with ⟨pre, e, post, hl, he, hpre, hres⟩ | ⟨habs, hres⟩
  · have hne : ¬ ∀ x ∈ bpl.Entries, x.Uid ≠ id := fun h => h e (hmem pre post e hl) he
    refine ⟨fun _ => ⟨pre, e, post, hl, he, hpre, hres⟩, ?_, ?_, ?_, rfl, ?_⟩
    · simp [hres, hne]
    · simp [hres, hne]
    · simp [hres, hne]
    · intro e2 h2
      rw [hres] at h2
      cases h2
      exact he
  · refine ⟨fun h => ?_, ?_, ?_, ?_, rfl, ?_⟩
    · obtain ⟨x, hx, hxid⟩ := h
      exact absurd hxid (habs x hx)
    · exact ⟨fun _ => hres, fun _ => habs⟩
    · rw [hres]
      exact ⟨fun _ => habs, fun _ => by simp⟩
    · rw [hres]
      exact ⟨fun _ => habs, fun _ => rfl⟩
    · intro e2 h2
      rw [hres] at h2
      cases h2

end Binlog

/-! ## setAndStartWorker -/

section Worker

variable {W : Type}

theorem setAndStartWorker_of_some (fmtV : W → String) (wrk cur : W) (s : World W)
    (h : s.slot.currentWorker = some cur) :
    setAndStartWorker fmtV wrk s = (s, none, some (alreadyInProgress fmtV cur)) := by
  simp [setAndStartWorker, h]

theorem attempts_of_some (fmtV : W → String) (cur : W) (s : World W)
    (h : s.slot.currentWorker = some cur) :
    ∀ wrks : List W, attempts fmtV s wrks =
      (s, wrks.map (fun _ => (none, some (alreadyInProgress fmtV cur))))
  | [] => rfl
  | w :: ws => by
    simp [attempts, setAndStartWorker_of_some fmtV w cur s h, attempts_of_some fmtV cur s h ws]

theorem run_submit_of_some (fmtV : W → String) (cur : W) (s : World W)
    (h : s.slot.currentWorker = some cur) :
    ∀ wrks : List W, run fmtV s (wrks.map Action.submit) = s
  | [] => rfl
  | w :: ws => by
    have ih := run_submit_of_some fmtV cur s h ws
    simp only [run, List.map_cons, List.foldl_cons, step] at ih ⊢
    rw [setAndStartWorker_of_some fmtV w cur s h]
    exact ih

theorem isRunning_worker (sl : Slot W) (h : sl.isRunning = true) :
    ∃ cur, sl.currentWorker = some cur := by
  cases hw : sl.currentWorker with
  | none => simp [Slot.isRunning, hw] at h
  | some cur => exact ⟨cur, rfl⟩

theorem isCompleted_worker (sl : Slot W) (h : sl.isCompleted = true) :
    ∃ cur, sl.currentWorker = some cur := by
  cases hw : sl.currentWorker with
  | none => simp [Slot.isCompleted, hw] at h
  | some cur => exact ⟨cur, rfl⟩

/-- C1: while a job is running, every call of `setAndStartWorker` returns a nil
channel and the error "A worker is already in progress: <current worker>" (the
worker in the slot, not the submitted one) and leaves the whole state, hence every
slot field, unchanged; so of any batch of calls made while the job runs, none
succeeds. -/
theorem setAndStartWorker_running_rejected (fmtV : W → String) (s : World W)
    (h : s.slot.isRunning = true) :
    ∃ cur, s.slot.currentWorker = some cur ∧
      (∀ wrk, setAndStartWorker fmtV wrk s =
          (s, none, some ("A worker is already in progress: " ++ fmtV cur))) ∧
      (∀ wrk, (setAndStartWorker fmtV wrk s).1.slot = s.slot) ∧
      (∀ wrks : List W,
          attempts fmtV s wrks =
            (s, wrks.map
              (fun _ => (none, some ("A worker is already in progress: " ++ fmtV cur)))) ∧
          run fmtV s (wrks.map Action.submit) = s) := by
  obtain ⟨cur, hcur⟩ := isRunning_worker s.slot h
  refine ⟨cur, hcur, fun wrk => setAndStartWorker_of_some fmtV wrk cur s hcur, ?_, ?_⟩
  · intro wrk
    rw [setAndStartWorker_of_some fmtV wrk cur s hcur]
  · intro wrks
    exact ⟨attempts_of_some fmtV cur s hcur wrks, run_submit_of_some fmtV cur s hcur wrks⟩

theorem setAndStartWorker_running_rejected_witness :
    exampleRunning.slot.isRunning = true ∧
    ∃ cur, exampleRunning.slot.currentWorker = some cur ∧
      (∀ wrk, setAndStartWorker id wrk exampleRunning =
          (exampleRunning, none, some ("A worker is already in progress: " ++ id cur))) ∧
      (∀ wrk, (setAndStartWorker id wrk exampleRunning).1.slot = exampleRunning.slot) ∧
      (∀ wrks : List String,
          attempts id exampleRunning wrks =
            (exampleRunning, wrks.map
              (fun _ => (none, some ("A worker is already in progress: " ++ id cur)))) ∧
          run id exampleRunning (wrks.map Action.submit) = exampleRunning) :=
  ⟨by decide, setAndStartWorker_running_rejected id exampleRunning (by decide)⟩

/-- C2 as stated fails: after worker "A" has run to completion (its result
recorded and its channel closed), submitting worker "B" returns a nil channel and
the error naming "A", and the slot is not changed. -/
theorem readmission_after_completion_rejected :
    exampleCompleted.slot.isCompleted = true ∧
    exampleCompleted.slot.lastRunError = none ∧
    exampleCompleted.chans = [1] ∧
    setAndStartWorker id "B" exampleCompleted =
      (exampleCompleted, none, some "A worker is already in progress: A") := by
  decide

/-- C2, amended: in a slot that has completed a job (`currentWorker` still set,
context and cancel function nil) every call of `setAndStartWorker` is rejected with
the error naming the worker that ran, and the state is unchanged; a call succeeds
exactly when `currentWorker` is nil. -/
theorem setAndStartWorker_completed_rejected (fmtV : W → String) (s : World W)
    (h : s.slot.isCompleted = true) :
    (∃ cur, s.slot.currentWorker = some cur ∧
      ∀ wrk, setAndStartWorker fmtV wrk s =
        (s, none, some ("A worker is already in progress: " ++ fmtV cur))) ∧
    (∀ (t : World W) (wrk : W),
      ((setAndStartWorker fmtV wrk t).2.2 = none ↔ t.slot.currentWorker = none) ∧
      ((setAndStartWorker fmtV wrk t).2.1 ≠ none ↔ t.slot.currentWorker = none)) := by
  obtain ⟨cur, hcur⟩ := isCompleted_worker s.slot h
  refine ⟨⟨cur, hcur, fun wrk => setAndStartWorker_of_some fmtV wrk cur s hcur⟩, ?_⟩
  intro t wrk
  cases ht : t.slot.currentWorker with
  | none => simp [setAndStartWorker, ht]
  | some c => simp [setAndStartWorker, ht]

theorem setAndStartWorker_completed_rejected_witness :
    exampleCompleted.slot.isCompleted = true ∧
    ((∃ cur, exampleCompleted.slot.currentWorker = some cur ∧
      ∀ wrk, setAndStartWorker id wrk exampleCompleted =
        (exampleCompleted, none, some ("A worker is already in progress: " ++ id cur))) ∧
    (∀ (t : World String) (wrk : String),
      ((setAndStartWorker id wrk t).2.2 = none ↔ t.slot.currentWorker = none) ∧
      ((setAndStartWorker id wrk t).2.1 ≠ none ↔ t.slot.currentWorker = none))) :=
  ⟨by decide, setAndStartWorker_completed_rejected id exampleCompleted (by decide)⟩

/-- C3: when `currentWorker` is nil, `setAndStartWorker wrk` returns a nil error
and a new channel that has not been closed; afterwards `currentWorker` is `wrk`,
the memory logger is a new empty one, the context and the cancel function are those
of a new context that is not cancelled, and `lastRunError` is nil whatever it was
before. -/
theorem setAndStartWorker_idle_admits (fmtV : W → String) (wrk : W) (s : World W)
    (h : s.slot.currentWorker = none) :
    (setAndStartWorker fmtV wrk s).2.2 = none ∧
    (setAndStartWorker fmtV wrk s).2.1 = some s.chans.length ∧
    s.chans[s.chans.length]? = none ∧
    (setAndStartWorker fmtV wrk s).1.chans[s.chans.length]? = some 0 ∧
    (setAndStartWorker fmtV wrk s).1.slot.currentWorker = some wrk ∧
    (setAndStartWorker fmtV wrk s).1.slot.currentMemoryLogger = some s.loggers.length ∧
    s.loggers[s.loggers.length]? = none ∧
    (setAndStartWorker fmtV wrk s).1.loggers[s.loggers.length]? = some [] ∧
    (setAndStartWorker fmtV wrk s).1.slot.currentContext = some s.ctxs.length ∧
    (setAndStartWorker fmtV wrk s).1.slot.currentCancelFunc = some s.ctxs.length ∧
    s.ctxs[s.ctxs.length]? = none ∧
    (setAndStartWorker fmtV wrk s).1.ctxs[s.ctxs.length]? = some 0 ∧
    (setAndStartWorker fmtV wrk s).1.slot.lastRunError = none ∧
    (setAndStartWorker fmtV wrk s).1.slot.isRunning = true := by
  simp [setAndStartWorker, h, Slot.isRunning]

theorem setAndStartWorker_idle_admits_witness :
    exampleStale.slot.currentWorker = none ∧
    exampleStale.slot.lastRunError = some "old" ∧
    (setAndStartWorker id "A" exampleStale).2.2 = none ∧
    (setAndStartWorker id "A" exampleStale).2.1 = some exampleStale.chans.length ∧
    exampleStale.chans[exampleStale.chans.length]? = none ∧
    (setAndStartWorker id "A" exampleStale).1.chans[exampleStale.chans.length]? = some 0 ∧
    (setAndStartWorker id "A" exampleStale).1.slot.currentWorker = some "A" :=
  ⟨rfl, rfl, (setAndStartWorker_idle_admits id "A" exampleStale rfl).1,
    (setAndStartWorker_idle_admits id "A" exampleStale rfl).2.1,
    (setAndStartWorker_idle_admits id "A" exampleStale rfl).2.2.1,
    (setAndStartWorker_idle_admits id "A" exampleStale rfl).2.2.2.1,
    (setAndStartWorker_idle_admits id "A" exampleStale rfl).2.2.2.2.1⟩

/-- C4: when `Run` has returned `err` (nil, an ordinary error or a cancellation
error), the critical section of the goroutine sets `lastRunError` to `err` and
both `currentContext` and `currentCancelFunc` to nil in one step, and changes
nothing else: `currentWorker`, `currentMemoryLogger` and the content of every
memory logger are as before. -/
theorem saveState_frame (fmtV : W → String) (s : World W) (i : Nat) (d : Driver W)
    (err : Option GoError) (hd : s.drivers[i]? = some d) (hpc : d.pc = DriverPc.returned err) :
    (step fmtV s (Action.saveState i)).slot =
      { currentWorker := s.slot.currentWorker
        currentMemoryLogger := s.slot.currentMemoryLogger
        currentContext := none
        currentCancelFunc := none
        lastRunError := err } ∧
    (step fmtV s (Action.saveState i)).loggers = s.loggers ∧
    (step fmtV s (Action.saveState i)).wrLogger = s.wrLogger ∧
    (step fmtV s (Action.saveState i)).ctxs = s.ctxs ∧
    (step fmtV s (Action.saveState i)).chans = s.chans ∧
    (step fmtV s (Action.saveState i)).handlers = s.handlers ∧
    (step fmtV s (Action.saveState i)).sigChecks = s.sigChecks ∧
    (step fmtV s (Action.saveState i)).drivers = setPc s.drivers i (DriverPc.saved err) := by
  simp [step, hd, hpc, markDone]

theorem saveState_frame_witness :
    exampleReturned.drivers[0]? =
      some { wrk := "A", done := 0, pc := DriverPc.returned (some "boom") } ∧
    (step id exampleReturned (Action.saveState 0)).slot =
      { currentWorker := exampleReturned.slot.currentWorker
        currentMemoryLogger := exampleReturned.slot.currentMemoryLogger
        currentContext := none
        currentCancelFunc := none
        lastRunError := some "boom" } :=
  ⟨by decide,
    (saveState_frame id exampleReturned 0
      { wrk := "A", done := 0, pc := DriverPc.returned (some "boom") } (some "boom")
      (by decide) rfl).1⟩

/-! ## The cancellation step -/

theorem cancelStep_slot (s : World W) : (cancelStep s).slot = s.slot := by
  unfold cancelStep
  split <;> rfl

theorem cancelStep_of_none (s : World W) (h : s.slot.currentCancelFunc = none) :
    cancelStep s = s := by
  simp [cancelStep, h]

theorem cancelStep_of_some (s : World W) (c : Nat) (h : s.slot.currentCancelFunc = some c) :
    cancelStep s = { s with ctxs := s.ctxs.modify (· + 1) c } := by
  simp [cancelStep, h]

theorem modify_add_succ (l : List Nat) (c n : Nat) :
    (l.modify (· + n) c).modify (· + 1) c = l.modify (· + (n + 1)) c := by
  induction l generalizing c with
  | nil => cases c <;> rfl
  | cons a l ih =>
    cases c with
    | zero => simp [List.modify, Nat.add_assoc]
    | succ c => simpa [List.modify] using ih c

theorem cancelStep_iterate_some (c : Nat) :
    ∀ (n : Nat) (s : World W), s.slot.currentCancelFunc = some c →
      cancelStep^[n] s = { s with ctxs := s.ctxs.modify (· + n) c }
  | 0, s, _ => by
    have h0 : s.ctxs.modify (· + 0) c = s.ctxs := by
      have : (fun x : Nat => x + 0) = id := rfl
      rw [this, List.modify_id]
    rw [h0]
    rfl
  | n + 1, s, h => by
    rw [Function.iterate_succ_apply', cancelStep_iterate_some c n s h]
    simp [cancelStep, h, modify_add_succ]

theorem cancelStep_iterate_none :
    ∀ (n : Nat) (s : World W), s.slot.currentCancelFunc = none → cancelStep^[n] s = s
  | 0, _, _ => rfl
  | n + 1, s, h => by
    rw [Function.iterate_succ_apply', cancelStep_iterate_none n s h, cancelStep_of_none s h]

theorem step_handle_slot (fmtV : W → String) (s : World W) (j : Nat) :
    (step fmtV s (Action.handle j)).slot = s.slot := by
  simp only [step]
  split
  · split
    · exact cancelStep_slot s
    · rfl
  · rfl

/-- C6: in every state (idle, running or completed) and for any number `n` of
repetitions, the cancellation step of the signal goroutine yields a state (it has
no failure path) whose slot fields, `lastRunError` among them, are those before;
when `currentCancelFunc` is nil the whole state is unchanged, and when it is the
cancel function of context `c`, each repetition invokes it once and nothing else
changes, so that the invocation count of `c` grows by `n` and that of every other
context stays. -/
theorem cancelStep_frame (fmtV : W → String) (s : World W) (n : Nat) :
    (cancelStep^[n] s).slot = s.slot ∧
    (cancelStep^[n] s).slot.lastRunError = s.slot.lastRunError ∧
    (s.slot.currentCancelFunc = none → cancelStep^[n] s = s) ∧
    (∀ c, s.slot.currentCancelFunc = some c →
      cancelStep^[n] s = { s with ctxs := s.ctxs.modify (· + n) c } ∧
      (∀ k, s.ctxs[c]? = some k → (cancelStep^[n] s).ctxs[c]? = some (k + n)) ∧
      (∀ j, j ≠ c → (cancelStep^[n] s).ctxs[j]? = s.ctxs[j]?)) ∧
    (∀ j, (step fmtV s (Action.handle j)).slot = s.slot) := by
  cases hc : s.slot.currentCancelFunc with
  | none =>
    have h := cancelStep_iterate_none n s hc
    refine ⟨by rw [h], by rw [h], fun _ => h, ?_, step_handle_slot fmtV s⟩
    intro c hc2
    cases hc2
  | some c =>
    have h := cancelStep_iterate_some c n s hc
    refine ⟨by rw [h], by rw [h], ?_, ?_, step_handle_slot fmtV s⟩
    · intro hc2
      cases hc2
    · intro c2 hc2
      cases hc2
      refine ⟨h, ?_, ?_⟩
      · intro k hk
        rw [h]
        simp [List.getElem?_modify, hk]
      · intro j hj
        rw [h]
        simp [List.getElem?_modify, Ne.symm hj]

/-! ## Reset -/

/-- C8: `Reset` (as the spec describes it) returns a completed slot to the idle
baseline, with no worker, a nil `lastRunError` and an empty log snapshot; on the
idle baseline it changes nothing; while a job is running it fails with
`JobInProgressError` and leaves the whole state, the slot fields and the running
goroutine included, unchanged. -/
theorem Reset_spec (s : World W) :
    (s.slot.isCompleted = true →
      (Reset s).2 = none ∧ (Reset s).1.slot.isIdle = true ∧
      (Reset s).1.slot.currentWorker = none ∧ (Reset s).1.slot.lastRunError = none ∧
      logSnapshot (Reset s).1 = []) ∧
    (s.slot.isIdle = true → (Reset s).2 = none ∧ (Reset s).1.slot.isIdle = true) ∧
    (s.slot = Slot.empty → Reset s = (s, none)) ∧
    (s.slot.isRunning = true →
      Reset s = (s, some ResetError.JobInProgressError) ∧
      (Reset s).1.slot = s.slot ∧ (Reset s).1.drivers = s.drivers) := by
  refine ⟨?_, ?_, ?_, ?_⟩
  · intro h
    have hr : s.slot.isRunning = false := by
      simp only [Slot.isCompleted, Bool.and_eq_true, Option.isNone_iff_eq_none] at h
      simp [Slot.isRunning, h.1.2]
    simp [Reset, hr, Slot.empty, Slot.isIdle, logSnapshot]
  · intro h
    have hr : s.slot.isRunning = false := by
      simp only [Slot.isIdle, Bool.and_eq_true, Option.isNone_iff_eq_none] at h
      simp [Slot.isRunning, h.1.1.1]
    simp [Reset, hr, Slot.empty, Slot.isIdle]
  · intro h
    have hr : s.slot.isRunning = false := by
      rw [h]
      rfl
    simp only [Reset, hr]
    rw [← h]
    rfl
  · intro h
    simp [Reset, h]


theorem Inv_init : Inv (World.init : World W) := by
  simp [Inv, World.init, Slot.empty]

theorem Inv_step (fmtV : W → String) (s : World W) (a : Action W) (h : Inv s) :
    Inv (step fmtV s a) := by
  obtain ⟨⟨cw, ml, cc, cf, le⟩, wl, lg, cx, ch, ds, hs, sc⟩ := s
  match ds, h with
  | [], h =>
    simp only [Inv] at h
    obtain ⟨rfl, rfl, rfl, rfl, rfl, rfl⟩ := h
    cases a with
    | handle j =>
      simp only [step, cancelStep]
      split
      · split <;> simp [Inv]
      · simp [Inv]
    | _ => simp [step, Inv, setAndStartWorker, installSignalHandlers]
  | [d], h =>
    obtain ⟨w, dn, pc⟩ := d
    simp only [Inv] at h
    obtain ⟨h1, h2, h3, h4⟩ := h
    subst h1 h2
    cases a with
    | submit wrk => cases pc <;> simp_all [step, Inv, setAndStartWorker]
    | callRun i =>
      cases i with
      | zero => cases pc <;> simp_all [step, Inv, setPc, List.modify]
      | succ i => cases pc <;> simp_all [step, Inv]
    | runReturns i err =>
      cases i with
      | zero => cases pc <;> simp_all [step, Inv, setPc, List.modify]
      | succ i => cases pc <;> simp_all [step, Inv]
    | saveState i =>
      cases i with
      | zero => cases pc <;> simp_all [step, Inv, setPc, List.modify, markDone]
      | succ i => cases pc <;> simp_all [step, Inv]
    | closeDone i =>
      cases i with
      | zero => cases pc <;> simp_all [step, Inv, setPc, List.modify]
      | succ i => cases pc <;> simp_all [step, Inv]
    | install => cases pc <;> simp_all [step, Inv, installSignalHandlers]
    | signal => cases pc <;> simp_all [step, Inv]
    | handle j =>
      simp only [step, cancelStep]
      split
      · split
        · cases pc <;> simp_all [Inv]
        · cases pc <;> simp_all [Inv]
      · cases pc <;> simp_all [Inv]
  | _ :: _ :: _, h => exact absurd h (by simp [Inv])


theorem run_append (fmtV : W → String) (s : World W) (l1 l2 : List (Action W)) :
    run fmtV s (l1 ++ l2) = run fmtV (run fmtV s l1) l2 := by
  simp [run, List.foldl_append]

theorem run_cons (fmtV : W → String) (s : World W) (a : Action W) (l : List (Action W)) :
    run fmtV s (a :: l) = run fmtV (step fmtV s a) l := rfl

theorem Inv_run (fmtV : W → String) :
    ∀ (acts : List (Action W)) (s : World W), Inv s → Inv (run fmtV s acts)
  | [], _, h => h
  | a :: acts, s, h => Inv_run fmtV acts (step fmtV s a) (Inv_step fmtV s a h)

theorem Inv_of_reachable (fmtV : W → String) (s : World W) (h : Reachable fmtV s) : Inv s := by
  obtain ⟨acts, rfl⟩ := h
  exact Inv_run fmtV acts World.init Inv_init

/-- C5: every state reached from the initial one by calls of `setAndStartWorker`,
steps of the goroutines it spawns, signals and steps of the signal goroutines has
one of the three documented shapes: all of `currentWorker`, `currentContext`,
`currentCancelFunc`, `lastRunError` nil; or the first three set and `lastRunError`
nil; or `currentWorker` set, `currentContext` and `currentCancelFunc` nil and
`lastRunError` the error the worker returned.  The cancel function is non-nil
exactly when a job is running, and `lastRunError` is non-nil only when a job has
completed. -/
theorem reachable_shapes (fmtV : W → String) (s : World W) (h : Reachable fmtV s) :
    ((s.slot.currentWorker = none ∧ s.slot.currentContext = none ∧
        s.slot.currentCancelFunc = none ∧ s.slot.lastRunError = none) ∨
      ((∃ w, s.slot.currentWorker = some w) ∧ (∃ c, s.slot.currentContext = some c) ∧
        (∃ f, s.slot.currentCancelFunc = some f) ∧ s.slot.lastRunError = none) ∨
      ((∃ w, s.slot.currentWorker = some w) ∧ s.slot.currentContext = none ∧
        s.slot.currentCancelFunc = none ∧
        ∃ d ∈ s.drivers, d.pc.recorded = some s.slot.lastRunError)) ∧
    (s.slot.currentCancelFunc ≠ none ↔ jobRunning s = true) ∧
    (s.slot.lastRunError ≠ none → jobCompleted s = true) := by
  have hinv := Inv_of_reachable fmtV s h
  obtain ⟨⟨cw, ml, cc, cf, le⟩, wl, lg, cx, ch, ds, hs, sc⟩ := s
  match ds, hinv with
  | [], hinv =>
    simp only [Inv] at hinv
    obtain ⟨rfl, rfl, rfl, rfl, rfl, rfl⟩ := hinv
    simp [jobRunning, jobCompleted]
  | [d], hinv =>
    obtain ⟨w, dn, pc⟩ := d
    simp only [Inv] at hinv
    obtain ⟨h1, h2, h3, h4⟩ := hinv
    subst h1 h2
    cases pc <;> simp_all [jobRunning, jobCompleted, DriverPc.recorded]
  | _ :: _ :: _, hinv => exact absurd hinv (by simp [Inv])


theorem reachable_shapes_witness :
    Reachable id exampleCompleted ∧
    (exampleCompleted.slot.currentCancelFunc ≠ none ↔ jobRunning exampleCompleted = true) :=
  ⟨⟨_, rfl⟩, (reachable_shapes id exampleCompleted ⟨_, rfl⟩).2.1⟩

/-! ## The completion channel -/

theorem env_step_core (fmtV : W → String) (s : World W) (a : Action W) (cur : W)
    (hw : s.slot.currentWorker = some cur) (ha : a.isEnv = true) :
    (step fmtV s a).slot = s.slot ∧ (step fmtV s a).drivers = s.drivers ∧
      (step fmtV s a).chans = s.chans := by
  cases a with
  | submit wrk => simp [step, setAndStartWorker, hw]
  | install => simp [step, installSignalHandlers]
  | signal => simp [step]
  | handle j =>
    simp only [step, cancelStep]
    split
    · split
      · split <;> simp
      · simp
    · simp
  | callRun i => simp [Action.isEnv] at ha
  | runReturns i err => simp [Action.isEnv] at ha
  | saveState i => simp [Action.isEnv] at ha
  | closeDone i => simp [Action.isEnv] at ha

theorem env_run_core (fmtV : W → String) (cur : W) :
    ∀ (acts : List (Action W)) (s : World W), s.slot.currentWorker = some cur →
      (∀ a ∈ acts, a.isEnv = true) →
      (run fmtV s acts).slot = s.slot ∧ (run fmtV s acts).drivers = s.drivers ∧
        (run fmtV s acts).chans = s.chans
  | [], _, _, _ => ⟨rfl, rfl, rfl⟩
  | a :: acts, s, hw, ha => by
    obtain ⟨h1, h2, h3⟩ := env_step_core fmtV s a cur hw (ha a (List.mem_cons_self _ _))
    have ih := env_run_core fmtV cur acts (step fmtV s a) (by rw [h1]; exact hw)
      (fun b hb => ha b (List.mem_cons_of_mem _ hb))
    rw [run_cons]
    rw [h1, h2, h3] at ih
    exact ih

/-- The part of the state that the goroutine of `setAndStartWorker` reads and
writes determines its steps. -/
theorem driver_progress (fmtV : W → String) (s : World W) (wrk : W) (err : Option GoError)
    (e1 e2 e3 e4 : List (Action W)) (hinv : Inv s) (hw : s.slot.currentWorker = none)
    (h1 : ∀ a ∈ e1, a.isEnv = true) (h2 : ∀ a ∈ e2, a.isEnv = true)
    (h3 : ∀ a ∈ e3, a.isEnv = true) (h4 : ∀ a ∈ e4, a.isEnv = true) :
    s.drivers = [] ∧ s.chans = [] ∧
    (run fmtV s (Action.submit wrk :: e1 ++ Action.callRun 0 :: e2 ++
        Action.runReturns 0 err :: e3 ++ Action.saveState 0 :: e4)).slot =
      { currentWorker := some wrk, currentMemoryLogger := some s.loggers.length,
        currentContext := none, currentCancelFunc := none, lastRunError := err } ∧
    (run fmtV s (Action.submit wrk :: e1 ++ Action.callRun 0 :: e2 ++
        Action.runReturns 0 err :: e3 ++ Action.saveState 0 :: e4)).drivers =
      [{ wrk := wrk, done := 0, pc := DriverPc.saved err }] ∧
    (run fmtV s (Action.submit wrk :: e1 ++ Action.callRun 0 :: e2 ++
        Action.runReturns 0 err :: e3 ++ Action.saveState 0 :: e4)).chans = [0] := by
  have hd : s.drivers = [] ∧ s.chans = [] := by
    obtain ⟨⟨cw, ml, cc, cf, le⟩, wl, lg, cx, ch, ds, hs, sc⟩ := s
    match ds, hinv with
    | [], hinv =>
      simp only [Inv] at hinv
      exact ⟨rfl, hinv.2.2.2.2.1⟩
    | [d], hinv =>
      simp only [Inv] at hinv
      simp only at hw
      rw [hw] at hinv
      exact absurd hinv.1 (by simp)
    | _ :: _ :: _, hinv => exact absurd hinv (by simp [Inv])
  obtain ⟨hds, hch⟩ := hd
  refine ⟨hds, hch, ?_⟩
  -- admission
  have a0 : (step fmtV s (Action.submit wrk)).slot =
        { currentWorker := some wrk, currentMemoryLogger := some s.loggers.length,
          currentContext := some s.ctxs.length, currentCancelFunc := some s.ctxs.length,
          lastRunError := none } ∧
      (step fmtV s (Action.submit wrk)).drivers = [{ wrk := wrk, done := 0, pc := DriverPc.start }] ∧
      (step fmtV s (Action.submit wrk)).chans = [0] := by
    simp [step, setAndStartWorker, hw, hds, hch]
  generalize hs1 : step fmtV s (Action.submit wrk) = s1 at a0
  obtain ⟨a0s, a0d, a0c⟩ := a0
  have b0 := env_run_core fmtV wrk e1 s1 (by rw [a0s]) h1
  generalize hs2 : run fmtV s1 e1 = s2 at b0
  rw [a0s, a0d, a0c] at b0
  obtain ⟨b0s, b0d, b0c⟩ := b0
  -- Run is called
  have a1 : (step fmtV s2 (Action.callRun 0)).slot = s2.slot ∧
      (step fmtV s2 (Action.callRun 0)).drivers =
        [{ wrk := wrk, done := 0, pc := DriverPc.inRun s2.slot.currentContext }] ∧
      (step fmtV s2 (Action.callRun 0)).chans = [0] := by
    simp [step, b0d, b0c, setPc, List.modify]
  generalize hs3 : step fmtV s2 (Action.callRun 0) = s3 at a1
  obtain ⟨a1s, a1d, a1c⟩ := a1
  have b1 := env_run_core fmtV wrk e2 s3 (by rw [a1s, b0s]) h2
  generalize hs4 : run fmtV s3 e2 = s4 at b1
  rw [a1s, a1d, a1c, b0s] at b1
  obtain ⟨b1s, b1d, b1c⟩ := b1
  -- Run returns
  have a2 : (step fmtV s4 (Action.runReturns 0 err)).slot = s4.slot ∧
      (step fmtV s4 (Action.runReturns 0 err)).drivers =
        [{ wrk := wrk, done := 0, pc := DriverPc.returned err }] ∧
      (step fmtV s4 (Action.runReturns 0 err)).chans = [0] := by
    simp [step, b1d, b1c, setPc, List.modify]
  generalize hs5 : step fmtV s4 (Action.runReturns 0 err) = s5 at a2
  obtain ⟨a2s, a2d, a2c⟩ := a2
  have b2 := env_run_core fmtV wrk e3 s5 (by rw [a2s, b1s]) h3
  generalize hs6 : run fmtV s5 e3 = s6 at b2
  rw [a2s, a2d, a2c, b1s] at b2
  obtain ⟨b2s, b2d, b2c⟩ := b2
  -- the critical section
  have a3 : (step fmtV s6 (Action.saveState 0)).slot = markDone err s6.slot ∧
      (step fmtV s6 (Action.saveState 0)).drivers =
        [{ wrk := wrk, done := 0, pc := DriverPc.saved err }] ∧
      (step fmtV s6 (Action.saveState 0)).chans = [0] := by
    simp [step, b2d, b2c, setPc, List.modify]
  generalize hs7 : step fmtV s6 (Action.saveState 0) = s7 at a3
  obtain ⟨a3s, a3d, a3c⟩ := a3
  have b3 := env_run_core fmtV wrk e4 s7 (by rw [a3s, b2s]; rfl) h4
  rw [a3s, a3d, a3c, b2s] at b3
  have hrun : run fmtV s (Action.submit wrk :: e1 ++ Action.callRun 0 :: e2 ++
        Action.runReturns 0 err :: e3 ++ Action.saveState 0 :: e4) = run fmtV s7 e4 := by
    simp only [run_append, run_cons]
    rw [hs1, hs2, hs3, hs4, hs5, hs6, hs7]
  rw [hrun]
  exact b3


theorem finished_step (fmtV : W → String) (s : World W) (a : Action W) (wrk : W)
    (err : Option GoError) (hw : s.slot.currentWorker = some wrk)
    (hd : s.drivers = [{ wrk := wrk, done := 0, pc := DriverPc.finished err }]) :
    (step fmtV s a).slot = s.slot ∧ (step fmtV s a).drivers = s.drivers ∧
      (step fmtV s a).chans = s.chans := by
  cases a with
  | submit w => simp [step, setAndStartWorker, hw]
  | install => simp [step, installSignalHandlers]
  | signal => simp [step]
  | handle j =>
    simp only [step, cancelStep]
    split
    · split
      · split <;> simp
      · simp
    · simp
  | callRun i => cases i <;> simp [step, hd]
  | runReturns i e => cases i <;> simp [step, hd]
  | saveState i => cases i <;> simp [step, hd]
  | closeDone i => cases i <;> simp [step, hd]

theorem finished_run (fmtV : W → String) (wrk : W) (err : Option GoError) :
    ∀ (acts : List (Action W)) (s : World W), s.slot.currentWorker = some wrk →
      s.drivers = [{ wrk := wrk, done := 0, pc := DriverPc.finished err }] →
      (run fmtV s acts).slot = s.slot ∧ (run fmtV s acts).drivers = s.drivers ∧
        (run fmtV s acts).chans = s.chans
  | [], _, _, _ => ⟨rfl, rfl, rfl⟩
  | a :: acts, s, hw, hd => by
    obtain ⟨h1, h2, h3⟩ := finished_step fmtV s a wrk err hw hd
    have ih := finished_run fmtV wrk err acts (step fmtV s a) (by rw [h1]; exact hw)
      (by rw [h2]; exact hd)
    rw [run_cons]
    rw [h1, h2, h3] at ih
    exact ih

/-- C9: in every reachable state the `done` channel of an admitted job has been
closed at most once, and it is closed only when the goroutine has finished, at
which point `currentContext` and `currentCancelFunc` are nil and `lastRunError` is
the error that job's `Run` returned.  And for every job admitted in a reachable
state, whatever `Run` returns and whatever the other threads do meanwhile, the
channel is open until the goroutine's last step, that step closes it, and it then
stays closed exactly once with `lastRunError` the error `Run` returned. -/
theorem done_closed_once (fmtV : W → String) (s : World W) (h : Reachable fmtV s) :
    (∀ d ∈ s.drivers, ∃ k, s.chans[d.done]? = some k ∧ k ≤ 1 ∧
      (k = 1 ↔ ∃ err, d.pc = DriverPc.finished err) ∧
      (k = 1 → s.slot.currentContext = none ∧ s.slot.currentCancelFunc = none ∧
        d.pc = DriverPc.finished s.slot.lastRunError)) ∧
    (∀ (wrk : W) (err : Option GoError) (e1 e2 e3 e4 e5 : List (Action W)),
      s.slot.currentWorker = none →
      (∀ a ∈ e1, a.isEnv = true) → (∀ a ∈ e2, a.isEnv = true) →
      (∀ a ∈ e3, a.isEnv = true) → (∀ a ∈ e4, a.isEnv = true) →
      (setAndStartWorker fmtV wrk s).2 = (some s.chans.length, none) ∧
      (run fmtV s (jobSchedule s.drivers.length wrk err e1 e2 e3 e4)).chans[s.chans.length]?
        = some 0 ∧
      (run fmtV s (jobSchedule s.drivers.length wrk err e1 e2 e3 e4 ++
          Action.closeDone s.drivers.length :: e5)).chans[s.chans.length]? = some 1 ∧
      (run fmtV s (jobSchedule s.drivers.length wrk err e1 e2 e3 e4 ++
          Action.closeDone s.drivers.length :: e5)).slot.lastRunError = err ∧
      (run fmtV s (jobSchedule s.drivers.length wrk err e1 e2 e3 e4 ++
          Action.closeDone s.drivers.length :: e5)).slot.currentContext = none ∧
      (run fmtV s (jobSchedule s.drivers.length wrk err e1 e2 e3 e4 ++
          Action.closeDone s.drivers.length :: e5)).slot.currentCancelFunc = none) := by
  have hinv := Inv_of_reachable fmtV s h
  constructor
  · obtain ⟨⟨cw, ml, cc, cf, le⟩, wl, lg, cx, ch, ds, hs, sc⟩ := s
    match ds, hinv with
    | [], hinv => simp
    | [d], hinv =>
      obtain ⟨w, dn, pc⟩ := d
      simp only [Inv] at hinv
      obtain ⟨h1, h2, h3, h4⟩ := hinv
      subst h1 h2
      cases pc <;> simp_all
    | _ :: _ :: _, hinv => exact absurd hinv (by simp [Inv])
  · intro wrk err e1 e2 e3 e4 e5 hw h1 h2 h3 h4
    obtain ⟨hds, hch, hslot, hdrv, hchans⟩ :=
      driver_progress fmtV s wrk err e1 e2 e3 e4 hinv hw h1 h2 h3 h4
    rw [hds, hch]
    simp only [List.length_nil, jobSchedule]
    rw [run_append fmtV s _ (Action.closeDone 0 :: e5), run_cons]
    generalize run fmtV s (Action.submit wrk :: e1 ++ Action.callRun 0 :: e2 ++
        Action.runReturns 0 err :: e3 ++ Action.saveState 0 :: e4) = t at hslot hdrv hchans ⊢
    have c1 : (step fmtV t (Action.closeDone 0)).slot = t.slot ∧
        (step fmtV t (Action.closeDone 0)).drivers =
          [{ wrk := wrk, done := 0, pc := DriverPc.finished err }] ∧
        (step fmtV t (Action.closeDone 0)).chans = [1] := by
      simp [step, hdrv, hchans, setPc, List.modify]
    generalize step fmtV t (Action.closeDone 0) = u at c1
    obtain ⟨c1s, c1d, c1c⟩ := c1
    obtain ⟨f1, _, f3⟩ := finished_run fmtV wrk err e5 u (by rw [c1s, hslot]) c1d
    refine ⟨by simp [setAndStartWorker, hw, hch], by simp [hchans], ?_, ?_, ?_, ?_⟩
    · rw [f3, c1c]
      rfl
    · rw [f1, c1s, hslot]
    · rw [f1, c1s, hslot]
    · rw [f1, c1s, hslot]

theorem done_closed_once_witness :
    Reachable id (World.init : World String) ∧
    (run id (World.init : World String)
      (jobSchedule 0 "A" (some "boom") [Action.install, Action.signal] [Action.submit "B"]
        [Action.handle 0] [] ++
        Action.closeDone 0 :: [Action.closeDone 0])).chans[0]? = some 1 :=
  ⟨⟨[], rfl⟩,
    ((done_closed_once id (World.init : World String) ⟨[], rfl⟩).2 "A" (some "boom")
      [Action.install, Action.signal] [Action.submit "B"] [Action.handle 0] []
      [Action.closeDone 0] rfl
      (by decide) (by decide) (by decide) (by decide)).2.2.1⟩

/-! ## The signal goroutine -/

theorem sum_modify_succ_le (l : List Nat) (c : Nat) :
    (l.modify (· + 1) c).sum ≤ l.sum + 1 := by
  induction l generalizing c with
  | nil => cases c <;> simp [List.modify]
  | cons a l ih =>
    cases c with
    | zero => simp [List.modify]; omega
    | succ c =>
      have := ih c
      rw [List.modify_succ_cons, List.sum_cons, List.sum_cons]
      omega

theorem cancelStep_sum_le (s : World W) : (cancelStep s).ctxs.sum ≤ s.ctxs.sum + 1 := by
  unfold cancelStep
  split
  · exact sum_modify_succ_le _ _
  · exact Nat.le_succ _

theorem cancelStep_handlers (s : World W) : (cancelStep s).handlers = s.handlers := by
  unfold cancelStep
  split <;> rfl

theorem cancelStep_sigChecks (s : World W) : (cancelStep s).sigChecks = s.sigChecks := by
  unfold cancelStep
  split <;> rfl

/-- Before `installSignalHandlers` is called there is no signal goroutine, and
no cancel function has been invoked. -/
theorem noHandler_step (fmtV : W → String) (s : World W) (a : Action W)
    (ha : a.isInstall = false)
    (h : s.handlers = [] ∧ s.sigChecks = 0 ∧ s.ctxs.sum = 0) :
    (step fmtV s a).handlers = [] ∧ (step fmtV s a).sigChecks = 0 ∧
      (step fmtV s a).ctxs.sum = 0 := by
  obtain ⟨h1, h2, h3⟩ := h
  cases a with
  | submit wrk =>
    simp only [step, setAndStartWorker]
    split <;> simp [h1, h2, h3]
  | install => simp [Action.isInstall] at ha
  | signal => simp [step, h1, h2, h3]
  | handle j => simp [step, h1, h2, h3]
  | callRun i =>
    simp only [step]
    split
    · split <;> simp [h1, h2, h3]
    · simp [h1, h2, h3]
  | runReturns i err =>
    simp only [step]
    split
    · split <;> simp [h1, h2, h3]
    · simp [h1, h2, h3]
  | saveState i =>
    simp only [step]
    split
    · split <;> simp [h1, h2, h3]
    · simp [h1, h2, h3]
  | closeDone i =>
    simp only [step]
    split
    · split <;> simp [h1, h2, h3]
    · simp [h1, h2, h3]

theorem noHandler_run (fmtV : W → String) :
    ∀ (acts : List (Action W)) (s : World W), (∀ a ∈ acts, a.isInstall = false) →
      (s.handlers = [] ∧ s.sigChecks = 0 ∧ s.ctxs.sum = 0) →
      (run fmtV s acts).handlers = [] ∧ (run fmtV s acts).sigChecks = 0 ∧
        (run fmtV s acts).ctxs.sum = 0
  | [], _, _, h => h
  | a :: acts, s, ha, h =>
    noHandler_run fmtV acts (step fmtV s a) (fun b hb => ha b (List.mem_cons_of_mem _ hb))
      (noHandler_step fmtV s a (ha a (List.mem_cons_self _ _)) h)

theorem other_step_frame (fmtV : W → String) (s : World W) (a : Action W)
    (h1 : a.isInstall = false) (h2 : a ≠ Action.signal) (h3 : ∀ j, a ≠ Action.handle j) :
    (step fmtV s a).handlers = s.handlers ∧ (step fmtV s a).sigChecks = s.sigChecks ∧
      (step fmtV s a).ctxs.sum = s.ctxs.sum := by
  cases a with
  | submit wrk =>
    simp only [step, setAndStartWorker]
    split <;> simp
  | install => simp [Action.isInstall] at h1
  | signal => exact absurd rfl h2
  | handle j => exact absurd rfl (h3 j)
  | callRun i =>
    simp only [step]
    split
    · split <;> simp
    · simp
  | runReturns i err =>
    simp only [step]
    split
    · split <;> simp
    · simp
  | saveState i =>
    simp only [step]
    split
    · split <;> simp
    · simp
  | closeDone i =>
    simp only [step]
    split
    · split <;> simp
    · simp

theorem numSignals_cons (a : Action W) (acts : List (Action W)) :
    numSignals (a :: acts) = numSignals [a] + numSignals acts := by
  cases a <;> simp [numSignals, Nat.add_comm]

theorem SigInv_step (fmtV : W → String) (n : Nat) (s : World W) (a : Action W)
    (ha : a.isInstall = false) (h : SigInv n s) :
    SigInv (n + numSignals [a]) (step fmtV s a) := by
  obtain ⟨⟨sc, rc⟩, hh, hcap, hchk, hrec, hbuf, hsig, hsum⟩ := h
  simp only at hcap hchk hrec hbuf hsig
  cases a with
  | signal =>
    refine ⟨SigHandler.deliver ⟨sc, rc⟩, by simp [step, hh], ?_, ?_, ?_, ?_, ?_, ?_⟩
    · simp only [SigHandler.deliver]; split <;> simp <;> omega
    · simp only [SigHandler.deliver, step]; split <;> simp [hchk]
    · simp [numSignals]
    · simp [numSignals]
    · intro _
      simp only [SigHandler.deliver]
      split
      · right; simp; omega
      · right; simp; omega
    · simpa [step] using hsum
  | handle j =>
    cases j with
    | succ j =>
      have : step fmtV s (Action.handle (j + 1)) = s := by simp [step, hh]
      rw [this]
      exact ⟨⟨sc, rc⟩, hh, hcap, hchk, by simpa [numSignals] using hrec,
        by simpa [numSignals] using hbuf, by simpa [numSignals] using hsig, hsum⟩
    | zero =>
      by_cases hen : rc = false ∧ 0 < sc
      · obtain ⟨hrc, hsc⟩ := hen
        subst hrc
        have hn : 1 ≤ n := hbuf hsc
        have h0 : s.sigChecks = 0 := by simpa using hchk
        have hs := cancelStep_sum_le s
        refine ⟨⟨sc - 1, true⟩, ?_, ?_, ?_, ?_, ?_, ?_, ?_⟩
        · simp [step, hh, hsc, cancelStep_handlers, List.modify]
        · simp; omega
        · simp [step, hh, hsc, cancelStep_sigChecks, h0]
        · intro _; simp [numSignals]; omega
        · intro _; simp [numSignals]; omega
        · intro _; left; rfl
        · simp only [step, hh, List.getElem?_cons_zero, hsc, and_self, if_true,
            cancelStep_sigChecks]
          omega
      · have : step fmtV s (Action.handle 0) = s := by
          simp only [step, hh, List.getElem?_cons_zero]
          rw [if_neg hen]
        rw [this]
        exact ⟨⟨sc, rc⟩, hh, hcap, hchk, by simpa [numSignals] using hrec,
          by simpa [numSignals] using hbuf, by simpa [numSignals] using hsig, hsum⟩
  | install => simp [Action.isInstall] at ha
  | submit wrk =>
    obtain ⟨f1, f2, f3⟩ := other_step_frame fmtV s (Action.submit wrk) ha (by simp) (by simp)
    exact ⟨⟨sc, rc⟩, by rw [f1, hh], hcap, by rw [f2, hchk], by simpa [numSignals] using hrec,
      by simpa [numSignals] using hbuf, by simpa [numSignals] using hsig, by rw [f2, f3]; exact hsum⟩
  | callRun i =>
    obtain ⟨f1, f2, f3⟩ := other_step_frame fmtV s (Action.callRun i) ha (by simp) (by simp)
    exact ⟨⟨sc, rc⟩, by rw [f1, hh], hcap, by rw [f2, hchk], by simpa [numSignals] using hrec,
      by simpa [numSignals] using hbuf, by simpa [numSignals] using hsig, by rw [f2, f3]; exact hsum⟩
  | runReturns i err =>
    obtain ⟨f1, f2, f3⟩ := other_step_frame fmtV s (Action.runReturns i err) ha (by simp) (by simp)
    exact ⟨⟨sc, rc⟩, by rw [f1, hh], hcap, by rw [f2, hchk], by simpa [numSignals] using hrec,
      by simpa [numSignals] using hbuf, by simpa [numSignals] using hsig, by rw [f2, f3]; exact hsum⟩
  | saveState i =>
    obtain ⟨f1, f2, f3⟩ := other_step_frame fmtV s (Action.saveState i) ha (by simp) (by simp)
    exact ⟨⟨sc, rc⟩, by rw [f1, hh], hcap, by rw [f2, hchk], by simpa [numSignals] using hrec,
      by simpa [numSignals] using hbuf, by simpa [numSignals] using hsig, by rw [f2, f3]; exact hsum⟩
  | closeDone i =>
    obtain ⟨f1, f2, f3⟩ := other_step_frame fmtV s (Action.closeDone i) ha (by simp) (by simp)
    exact ⟨⟨sc, rc⟩, by rw [f1, hh], hcap, by rw [f2, hchk], by simpa [numSignals] using hrec,
      by simpa [numSignals] using hbuf, by simpa [numSignals] using hsig, by rw [f2, f3]; exact hsum⟩

theorem SigInv_run (fmtV : W → String) :
    ∀ (acts : List (Action W)) (s : World W) (n : Nat), (∀ a ∈ acts, a.isInstall = false) →
      SigInv n s → SigInv (n + numSignals acts) (run fmtV s acts)
  | [], _, _, _, h => by simpa [numSignals] using h
  | a :: acts, s, n, ha, h => by
    have ih := SigInv_run fmtV acts (step fmtV s a) (n + numSignals [a])
      (fun b hb => ha b (List.mem_cons_of_mem _ hb))
      (SigInv_step fmtV n s a (ha a (List.mem_cons_self _ _)) h)
    rw [numSignals_cons, ← Nat.add_assoc, run_cons]
    exact ih

theorem SigInv_install (s : World W)
    (h : s.handlers = [] ∧ s.sigChecks = 0 ∧ s.ctxs.sum = 0) :
    SigInv 0 (installSignalHandlers s) := by
  obtain ⟨h1, h2, h3⟩ := h
  exact ⟨⟨0, false⟩, by simp [installSignalHandlers, h1], by simp,
    by simp [installSignalHandlers, h2], by simp, by simp, by simp,
    by simp [installSignalHandlers, h2, h3]⟩

/-- C10 as stated fails: with a job running and its cancel function non-nil
throughout, two signals are delivered after `installSignalHandlers` and the signal
goroutine is scheduled after each; the critical section has run once, the cancel
function has been invoked once, and the second signal is left in `sigChan`. -/
theorem second_signal_not_handled :
    numSignals exampleTwoSignals = 2 ∧
    (run id World.init (Action.install :: exampleTwoSignals)).sigChecks = 1 ∧
    (run id World.init (Action.install :: exampleTwoSignals)).ctxs = [1] ∧
    (run id World.init (Action.install :: exampleTwoSignals)).slot.currentCancelFunc = some 0 ∧
    (run id World.init (Action.install :: exampleTwoSignals)).handlers =
      [{ sigChan := 1, received := true }] := by
  decide

theorem cancelFunc_cell (t : World W) (hinv : Inv t) (c : Nat)
    (hc : t.slot.currentCancelFunc = some c) : c = 0 ∧ ∃ k, t.ctxs = [k] := by
  obtain ⟨⟨cw, ml, cc, cf, le⟩, wl, lg, cx, ch, ds, hs, sc⟩ := t
  simp only at hc
  subst hc
  have hlen : ∀ l : List Nat, l.length = 1 → ∃ k, l = [k] := by
    intro l hl
    match l, hl with
    | [k], _ => exact ⟨k, rfl⟩
  match ds, hinv with
  | [], hinv =>
    simp only [Inv] at hinv
    exact absurd hinv.2.2.1 (by simp)
  | [d], hinv =>
    obtain ⟨w, dn, pc⟩ := d
    simp only [Inv] at hinv
    obtain ⟨_, _, h3, h4⟩ := hinv
    refine ⟨?_, hlen cx h3⟩
    cases pc <;> simp_all
  | _ :: _ :: _, hinv => exact absurd hinv (by simp [Inv])

/-- C10, amended: after one call of `installSignalHandlers`, whatever signals are
delivered and however the threads are scheduled, the signal goroutine performs the
cancellation step at most once in total, and only if a signal was delivered; the
cancel function is invoked at most as often as the step is performed.  Once a
signal has been delivered and the goroutine has not yet run, its next step performs
the one check of `currentCancelFunc`: when that is the cancel function of context
`c`, not yet invoked, the step invokes it exactly once (the count of `c` and the
total go from 0 to 1), and when it is nil nothing is invoked.  Once the check has
been performed, every later signal and every later step of the goroutine leads to no
check and no invocation. -/
theorem signal_goroutine_one_shot (fmtV : W → String) (pre post : List (Action W))
    (hpre : ∀ a ∈ pre, a.isInstall = false) (hpost : ∀ a ∈ post, a.isInstall = false) :
    (run fmtV World.init (pre ++ Action.install :: post)).sigChecks ≤ 1 ∧
    (run fmtV World.init (pre ++ Action.install :: post)).sigChecks ≤ numSignals post ∧
    (run fmtV World.init (pre ++ Action.install :: post)).ctxs.sum ≤
      (run fmtV World.init (pre ++ Action.install :: post)).sigChecks ∧
    (1 ≤ numSignals post →
      (step fmtV (run fmtV World.init (pre ++ Action.install :: post))
        (Action.handle 0)).sigChecks = 1) ∧
    (1 ≤ numSignals post →
      (run fmtV World.init (pre ++ Action.install :: post)).sigChecks = 0 →
      (∀ c, (run fmtV World.init (pre ++ Action.install :: post)).slot.currentCancelFunc
            = some c →
        (run fmtV World.init (pre ++ Action.install :: post)).ctxs[c]? = some 0 ∧
        (step fmtV (run fmtV World.init (pre ++ Action.install :: post))
          (Action.handle 0)).ctxs[c]? = some 1 ∧
        (step fmtV (run fmtV World.init (pre ++ Action.install :: post))
          (Action.handle 0)).ctxs.sum = 1) ∧
      ((run fmtV World.init (pre ++ Action.install :: post)).slot.currentCancelFunc = none →
        (step fmtV (run fmtV World.init (pre ++ Action.install :: post))
          (Action.handle 0)).ctxs =
          (run fmtV World.init (pre ++ Action.install :: post)).ctxs)) ∧
    ((run fmtV World.init (pre ++ Action.install :: post)).sigChecks = 1 →
      (∀ j, step fmtV (run fmtV World.init (pre ++ Action.install :: post))
          (Action.handle j) = run fmtV World.init (pre ++ Action.install :: post)) ∧
      (step fmtV (run fmtV World.init (pre ++ Action.install :: post))
        Action.signal).sigChecks = 1 ∧
      (step fmtV (run fmtV World.init (pre ++ Action.install :: post))
        Action.signal).ctxs = (run fmtV World.init (pre ++ Action.install :: post)).ctxs) := by
  have h0 := noHandler_run fmtV pre World.init hpre ⟨rfl, rfl, rfl⟩
  have h1 := SigInv_run fmtV post _ 0 hpost (SigInv_install _ h0)
  have hrun : run fmtV World.init (pre ++ Action.install :: post) =
      run fmtV (installSignalHandlers (run fmtV World.init pre)) post := by
    rw [run_append, run_cons]
    rfl
  rw [← hrun] at h1
  have hinv : Inv (run fmtV World.init (pre ++ Action.install :: post)) :=
    Inv_run fmtV _ World.init Inv_init
  generalize run fmtV World.init (pre ++ Action.install :: post) = t at h1 hinv ⊢
  obtain ⟨⟨sc, rc⟩, hh, hcap, hchk, hrec, hbuf, hsig, hsum⟩ := h1
  simp only [Nat.zero_add] at hrec hbuf hsig
  simp only at hcap hchk hrec hbuf hsig
  cases rc with
  | true =>
    have hn := hrec rfl
    simp only [if_true] at hchk
    refine ⟨by omega, by omega, hsum, fun _ => ?_, fun _ h => ?_, fun _ => ⟨?_, ?_, ?_⟩⟩
    · simp [step, hh, hchk]
    · omega
    · intro j
      cases j <;> simp [step, hh]
    · simp [step, hchk]
    · simp [step]
  | false =>
    have hchk0 : t.sigChecks = 0 := by simpa using hchk
    refine ⟨by omega, by omega, hsum, fun hn => ?_, fun hn _ => ⟨?_, ?_⟩, fun h => ?_⟩
    · have hsc : sc = 1 := by
        rcases hsig hn with h | h
        · cases h
        · exact h
      simp [step, hh, hsc, cancelStep_sigChecks, hchk0]
    · intro c hc
      have hsc : sc = 1 := by
        rcases hsig hn with h | h
        · cases h
        · exact h
      obtain ⟨rfl, k, hk⟩ := cancelFunc_cell t hinv c hc
      have hk0 : k = 0 := by
        rw [hk, hchk0] at hsum
        simpa using hsum
      subst hk0
      simp [step, hh, hsc, cancelStep, hc, hk]
    · intro hc
      have hsc : sc = 1 := by
        rcases hsig hn with h | h
        · cases h
        · exact h
      simp [step, hh, hsc, cancelStep, hc]
    · omega

/-- A job is running, `installSignalHandlers` has been called, and one signal has
been delivered that the signal goroutine has not yet received. -/
theorem signal_goroutine_one_shot_witness :
    (∀ a ∈ ([] : List (Action String)), a.isInstall = false) ∧
    (∀ a ∈ [Action.submit "A", Action.callRun 0, Action.signal], a.isInstall = false) ∧
    1 ≤ numSignals [Action.submit "A", Action.callRun 0, Action.signal] ∧
    (run id World.init ([] ++ Action.install ::
      [Action.submit "A", Action.callRun 0, Action.signal])).sigChecks = 0 ∧
    (run id World.init ([] ++ Action.install ::
      [Action.submit "A", Action.callRun 0, Action.signal])).slot.currentCancelFunc = some 0 ∧
    ((run id World.init ([] ++ Action.install ::
        [Action.submit "A", Action.callRun 0, Action.signal])).ctxs[0]? = some 0 ∧
      (step id (run id World.init ([] ++ Action.install ::
        [Action.submit "A", Action.callRun 0, Action.signal])) (Action.handle 0)).ctxs[0]?
        = some 1 ∧
      (step id (run id World.init ([] ++ Action.install ::
        [Action.submit "A", Action.callRun 0, Action.signal])) (Action.handle 0)).ctxs.sum
        = 1) :=
  ⟨by decide, by decide, by decide, by decide, by decide,
    ((signal_goroutine_one_shot id [] [Action.submit "A", Action.callRun 0, Action.signal]
      (by decide) (by decide)).2.2.2.2.1 (by decide) (by decide)).1 0 (by decide)⟩

end Worker

end Vitess
